import Mathlib

/-!
Shallow embedding of the chess-insights analytics engine (the game-analysis
module, the tactics worker and its consumer hook) together with proofs of the
specification claims about it.

Conventions of the embedding:
* JavaScript numbers that only ever hold non-negative integers are modelled
  as `Nat`; epoch timestamps are `Int` (only compared and subtracted).
* `Math.round(x)` on the non-negative quotients appearing here rounds
  half-up; it is modelled exactly on rationals (the floating-point error of
  `(w/t)*100` is far below the distance `1/(2t)` from a rounding boundary for
  any feasible batch size, so the rational model agrees with the source).
* JavaScript's stable `Array.prototype.sort` with a numeric comparator is
  modelled by a stable insertion sort (`sortDescBy`).
* `Map` insertion-order iteration is modelled by an association list updated
  in place (`upsertGroup`).
-/

namespace ChessInsights

/-- One side of a game record (`GamePlayer` in `chessApi.ts`); the `uuid` and
`@id` fields are never read by the analytics code and are omitted. -/
structure GamePlayer where
  rating : Int
  result : String
  username : String
deriving DecidableEq

/-- A match record (`ChessGame` in `chessApi.ts`) restricted to the fields the
analytics functions read: the PGN blob, the end timestamp (epoch seconds) and
the two sides.  (`url`, `time_control`, `rated`, `time_class`, `accuracies`,
… are not consulted by any function a claim is about.) -/
structure ChessGame where
  pgn : String
  end_time : Int
  white : GamePlayer
  black : GamePlayer
deriving DecidableEq

/-- `GameResult` — `'win' | 'loss' | 'draw'`. -/
inductive GameResult where
  | win
  | loss
  | draw
deriving DecidableEq

/-- `String.prototype.toLowerCase()`, modelled per character (on the ASCII
identities compared by the analytics the JS conversion is exactly
per-character). -/
def lowerStr (s : String) : String :=
  String.mk (s.toList.map Char.toLower)

/-- `playedAsWhite(game, username)`: case-insensitive comparison of the white
side's identity with the subject identity. -/
def playedAsWhite (game : ChessGame) (username : String) : Bool :=
  lowerStr game.white.username == lowerStr username

/-- The six outcome codes classified as draws by `getResult`. -/
def drawCodes : List String :=
  ["agreed", "repetition", "stalemate", "insufficient", "50move", "timevsinsufficient"]

/-- The outcome-code → {win,loss,draw} mapping inlined in `getResult`:
`'win'` ↦ win, the six draw codes ↦ draw, anything else ↦ loss. -/
def resultFromCode (code : String) : GameResult :=
  if code = "win" then .win
  else if code ∈ drawCodes then .draw
  else .loss

/-- `getResult(game, username)`: pick the subject's side by `playedAsWhite`
and map that side's outcome code. -/
def getResult (game : ChessGame) (username : String) : GameResult :=
  let code := if playedAsWhite game username then game.white.result else game.black.result
  resultFromCode code

/-- `winPct(wins, total)`: `0` when `total === 0`, else
`Math.round((wins/total)*100)`; half-up rounding of `100*wins/total` is
`⌊(200*wins + total) / (2*total)⌋`, here by `Nat` division. -/
def winPctFn (wins total : Nat) : Nat :=
  if total = 0 then 0 else (200 * wins + total) / (2 * total)

/-- `GameResultCounts`. -/
structure GameResultCounts where
  wins : Nat
  losses : Nat
  draws : Nat
  total : Nat
  winPct : Nat
  lossPct : Nat
  drawPct : Nat
deriving DecidableEq

/-- `makeResultCounts(wins, losses, draws)`. -/
def makeResultCounts (wins losses draws : Nat) : GameResultCounts :=
  ⟨wins, losses, draws, wins + losses + draws,
    winPctFn wins (wins + losses + draws),
    winPctFn losses (wins + losses + draws),
    winPctFn draws (wins + losses + draws)⟩

/-- `computeResultCounts(games, username)`: the loop increments exactly one of
the three counters per game, so each tally is a `countP`. -/
def computeResultCounts (games : List ChessGame) (username : String) :
    GameResultCounts :=
  makeResultCounts
    (games.countP (fun g => getResult g username == .win))
    (games.countP (fun g => getResult g username == .loss))
    (games.countP (fun g => getResult g username == .draw))

/-! ### Text scanning: header stripping and castling detection -/

/-- JavaScript `\s` on the characters that occur in PGN blobs (space, tab,
newline, carriage return, vertical tab, form feed). -/
def isJsWs (c : Char) : Bool :=
  c = ' ' || c = '\t' || c = '\n' || c = '\r' || c = '\x0b' || c = '\x0c'

/-- The suffix after the first `']'`, or `none` when no `']'` occurs: the
extent matched by the greedy `[^\]]*\]` part of the header regex. -/
def afterRBracket : List Char → Option (List Char)
  | [] => none
  | c :: cs => if c = ']' then some cs else afterRBracket cs

/-- Worker for `stripHeaders`, structurally recursive on a fuel argument.
Every recursive call consumes at least one character of the input (the head in
the keep cases; the head plus at least the `']'` in the removal case), so
`fuel = input length` never runs out: the `0, non-nil` branch is
unreachable from `stripHeaders`. -/
def stripHeadersFuel : Nat → List Char → List Char
  | _, [] => []
  | 0, cs => cs
  | fuel + 1, c :: rest =>
    if c = '[' then
      match afterRBracket rest with
      | some tail => stripHeadersFuel fuel (tail.dropWhile isJsWs)
      | none => c :: stripHeadersFuel fuel rest
    else c :: stripHeadersFuel fuel rest

/-- Global replacement `blob.replace(/\[[^\]]*\]\s*/g, '')`: scanning left to
right, a `'['` with a later `']'` is removed together with everything up to
that `']'` and any following whitespace; a `'['` with no closing `']'` does
not match and is kept. -/
def stripHeaders (cs : List Char) : List Char :=
  stripHeadersFuel cs.length cs

/-- `String.prototype.trim()` on a character list. -/
def trimWs (cs : List Char) : List Char :=
  ((cs.dropWhile isJsWs).reverse.dropWhile isJsWs).reverse

/-- JavaScript `\w`: ASCII letters, digits and underscore. -/
def isWordChar (c : Char) : Bool :=
  c.isAlpha || c.isDigit || c = '_'

/-- The `\b` after a pattern ending in a word character: end of input or a
non-word character next. -/
def boundaryAfter : List Char → Bool
  | [] => true
  | c :: _ => !isWordChar c

/-- Match `pat` (which begins and ends with a word character) at the head of
`s`, requiring a trailing word boundary. -/
def matchWordAt (pat s : List Char) : Bool :=
  pat.isPrefixOf s && boundaryAfter (s.drop pat.length)

/-- `/\bPAT\b/.test(s)` for a `PAT` that begins and ends with word
characters: some position with a word boundary on the left (tracked by
`prevIsWord`) matches `pat` followed by a word boundary. -/
def containsWordTok (pat : List Char) : Bool → List Char → Bool
  | _, [] => false
  | prevIsWord, c :: cs =>
    (!prevIsWord && matchWordAt pat (c :: cs)) || containsWordTok pat (isWordChar c) cs

/-- `'kingside' | 'queenside' | 'none'`. -/
inductive CastleSide where
  | kingside
  | queenside
  | none
deriving DecidableEq

/-- `/\bO-O-O\b/.test(movesSection)` where `movesSection` is the trimmed,
header-stripped blob. -/
def queensideTokPresent (pgn : String) : Bool :=
  containsWordTok "O-O-O".toList false (trimWs (stripHeaders pgn.toList))

/-- `/\bO-O\b/.test(movesSection)` where `movesSection` is the trimmed,
header-stripped blob. -/
def kingsideTokPresent (pgn : String) : Bool :=
  containsWordTok "O-O".toList false (trimWs (stripHeaders pgn.toList))

/-- `detectCastling(pgn)`: strip headers, then test `/\bO-O-O\b/` before
`/\bO-O\b/`. -/
def detectCastling (pgn : String) : CastleSide :=
  if queensideTokPresent pgn then .queenside
  else if kingsideTokPresent pgn then .kingside
  else .none

/-- The `counts` component of `CastlingStats`. -/
structure CastleCounts where
  kingside : Nat
  queenside : Nat
  none : Nat
deriving DecidableEq

/-- `CastlingStats`. -/
structure CastlingStats where
  kingsidePct : Nat
  queensidePct : Nat
  noCastlePct : Nat
  kingsideWinPct : Nat
  queensideWinPct : Nat
  noCastleWinPct : Nat
  counts : CastleCounts
deriving DecidableEq

/-- `computeCastlingStats(games, username)`.  The share percentages in the
source are `Math.round((count/total)*100) || 0`; with `total = 0` the
quotient is `NaN` and `|| 0` makes the field `0`, which is exactly the
`total = 0` guard of `winPctFn` (on a non-`NaN` result `|| 0` only maps `0`
to itself). -/
def computeCastlingStats (games : List ChessGame) (username : String) :
    CastlingStats :=
  let cK := games.countP (fun g => detectCastling g.pgn == .kingside)
  let cQ := games.countP (fun g => detectCastling g.pgn == .queenside)
  let cN := games.countP (fun g => detectCastling g.pgn == .none)
  let wK := games.countP
    (fun g => detectCastling g.pgn == .kingside && getResult g username == .win)
  let wQ := games.countP
    (fun g => detectCastling g.pgn == .queenside && getResult g username == .win)
  let wN := games.countP
    (fun g => detectCastling g.pgn == .none && getResult g username == .win)
  let total := games.length
  ⟨winPctFn cK total, winPctFn cQ total, winPctFn cN total,
   winPctFn wK cK, winPctFn wQ cQ, winPctFn wN cN, ⟨cK, cQ, cN⟩⟩

/-! ### Header/opening extraction -/

/-- The greedy `([^"]+)"` capture: the run of non-quote characters (possibly
empty here; emptiness is rejected by the caller) and the rest after the
closing quote; `none` when no quote follows. -/
def takeUntilQuote : List Char → Option (List Char × List Char)
  | [] => none
  | c :: cs =>
    if c = '"' then some ([], cs)
    else
      match takeUntilQuote cs with
      | some (cap, rest) => some (c :: cap, rest)
      | none => none

/-- Try the regex `\[TAG "([^"]+)"\]` at the head of `s`, where `pre` is the
literal prefix `[TAG "`: the capture must be non-empty and be followed by
`"]`. -/
def tryTagAt (pre s : List Char) : Option (List Char) :=
  if pre.isPrefixOf s then
    match takeUntilQuote (s.drop pre.length) with
    | some (cap, rest) =>
      match cap, rest with
      | _ :: _, ']' :: _ => some cap
      | _, _ => none
    | none => none
  else none

/-- `blob.match(/\[TAG "([^"]+)"\]/)?.[1]`: first (leftmost) match wins. -/
def findTag (pre : List Char) : List Char → Option (List Char)
  | [] => none
  | c :: cs =>
    match tryTagAt pre (c :: cs) with
    | some cap => some cap
    | none => findTag pre cs

/-- The suffix after the first occurrence of `sep`, or `none` when `sep` does
not occur. -/
def dropThroughMarker (sep : List Char) : List Char → Option (List Char)
  | [] => none
  | c :: cs =>
    if sep.isPrefixOf (c :: cs) then some ((c :: cs).drop sep.length)
    else dropThroughMarker sep cs

/-- The prefix up to (excluding) the next occurrence of `sep`. -/
def takeUntilMarker (sep : List Char) : List Char → List Char
  | [] => []
  | c :: cs =>
    if sep.isPrefixOf (c :: cs) then [] else c :: takeUntilMarker sep cs

/-- `s.split(sep)[1]` for a string separator: the text strictly between the
first and second occurrence of `sep` (to the end when there is no second
occurrence); `none` when `sep` does not occur at all. -/
def splitIndexOne (sep s : List Char) : Option (List Char) :=
  (dropThroughMarker sep s).map (takeUntilMarker sep)

/-- `/^\d+\./.test(part)`: one or more digits followed by a dot. -/
def isMoveNumTok (part : List Char) : Bool :=
  let ds := part.takeWhile Char.isDigit
  !ds.isEmpty && ((part.drop ds.length).head? == some '.')

/-- `url.split('/openings/')[1]`. -/
def openingUrlPath (url : String) : Option (List Char) :=
  splitIndexOne "/openings/".toList url.toList

/-- `parseOpeningNameFromUrl(url)`: the `split('/openings/')[1]` segment,
split on hyphens, segments accumulated until a move-number token, joined
with spaces; `"Unknown Opening"` when the marker is absent, the segment is
empty (`if (!path)`), or the join is empty (`|| 'Unknown Opening'`). -/
def parseOpeningNameFromUrl (url : String) : String :=
  match openingUrlPath url with
  | Option.none => "Unknown Opening"
  | some path =>
    if path.isEmpty then "Unknown Opening"
    else
      let nameParts := (path.splitOn '-').takeWhile (fun p => !isMoveNumTok p)
      let joined := List.intercalate [' '] nameParts
      if joined.isEmpty then "Unknown Opening" else String.mk joined

/-- The `{eco, name}` value returned by `extractOpening`. -/
structure OpeningId where
  eco : String
  name : String
deriving DecidableEq

/-- `pgn.match(/\[ECO "([^"]+)"\]/)?.[1]`. -/
def ecoTagValue (pgn : String) : Option (List Char) :=
  findTag "[ECO \"".toList pgn.toList

/-- `pgn.match(/\[Opening "([^"]+)"\]/)?.[1]`. -/
def openingTagValue (pgn : String) : Option (List Char) :=
  findTag "[Opening \"".toList pgn.toList

/-- `pgn.match(/\[ECOUrl "([^"]+)"\]/)?.[1]`. -/
def ecoUrlTagValue (pgn : String) : Option (List Char) :=
  findTag "[ECOUrl \"".toList pgn.toList

/-- `extractOpening(pgn)`: `eco` from the `ECO` tag (else `"Unknown"`);
`name` from the `Opening` tag, else derived from the `ECOUrl` tag, else
`"Unknown Opening"`. -/
def extractOpening (pgn : String) : OpeningId :=
  let name :=
    match openingTagValue pgn with
    | some n => String.mk n
    | Option.none =>
      match ecoUrlTagValue pgn with
      | some u => parseOpeningNameFromUrl (String.mk u)
      | Option.none => "Unknown Opening"
  ⟨((ecoTagValue pgn).map String.mk).getD "Unknown", name⟩

/-! ### Stable descending sort

`Array.prototype.sort` with the numeric comparators `(a, b) => b.end_time -
a.end_time` and `(a, b) => b.count - a.count` is (per the ECMAScript
specification) a stable sort into non-increasing key order.  It is modelled
by a stable insertion sort. -/

/-- Insert `x` into `l` after every element with a strictly larger key and
before the first element whose key is `≤ k x` (so before equal keys: `x`
comes from earlier in the original list than everything in `l`). -/
def insertDescBy {α : Type} (k : α → Int) (x : α) : List α → List α
  | [] => [x]
  | y :: ys => if k x < k y then y :: insertDescBy k x ys else x :: y :: ys

/-- Stable sort into non-increasing key order (`foldr`-style insertion
sort). -/
def sortDescBy {α : Type} (k : α → Int) : List α → List α
  | [] => []
  | x :: xs => insertDescBy k x (sortDescBy k xs)

theorem perm_insertDescBy {α : Type} (k : α → Int) (x : α) (l : List α) :
    List.Perm (insertDescBy k x l) (x :: l) := by
  induction l with
  | nil => simp [insertDescBy]
  | cons y ys ih =>
    by_cases h : k x < k y
    · simp only [insertDescBy, if_pos h]
      exact (ih.cons y).trans (List.Perm.swap x y ys)
    · simp [insertDescBy, if_neg h]

theorem perm_sortDescBy {α : Type} (k : α → Int) (l : List α) :
    List.Perm (sortDescBy k l) l := by
  induction l with
  | nil => simp [sortDescBy]
  | cons x xs ih =>
    exact (perm_insertDescBy k x (sortDescBy k xs)).trans (ih.cons x)

theorem length_sortDescBy {α : Type} (k : α → Int) (l : List α) :
    (sortDescBy k l).length = l.length :=
  (perm_sortDescBy k l).length_eq

theorem pairwise_insertDescBy {α : Type} (k : α → Int) (x : α) (l : List α)
    (h : l.Pairwise (fun a b => k b ≤ k a)) :
    (insertDescBy k x l).Pairwise (fun a b => k b ≤ k a) := by
  induction l with
  | nil => simp [insertDescBy]
  | cons y ys ih =>
    rcases List.pairwise_cons.mp h with ⟨hy, hys⟩
    by_cases hxy : k x < k y
    · simp only [insertDescBy, if_pos hxy]
      refine List.pairwise_cons.mpr ⟨?_, ih hys⟩
      intro a ha
      have hmem := (perm_insertDescBy k x ys).mem_iff.mp ha
      rcases List.mem_cons.mp hmem with rfl | hmem
      · exact le_of_lt hxy
      · exact hy a hmem
    · simp only [insertDescBy, if_neg hxy]
      refine List.pairwise_cons.mpr ⟨?_, h⟩
      intro a ha
      rcases List.mem_cons.mp ha with rfl | hmem
      · exact le_of_not_lt hxy
      · exact le_trans (hy a hmem) (le_of_not_lt hxy)

theorem pairwise_sortDescBy {α : Type} (k : α → Int) (l : List α) :
    (sortDescBy k l).Pairwise (fun a b => k b ≤ k a) := by
  induction l with
  | nil => simp [sortDescBy]
  | cons x xs ih => exact pairwise_insertDescBy k x (sortDescBy k xs) ih

/-- Stability of the insertion step, phrased through key-level filters. -/
theorem filter_insertDescBy {α : Type} (k : α → Int) (x : α) (l : List α)
    (c : Int) :
    (insertDescBy k x l).filter (fun a => k a == c) =
      if k x == c then x :: l.filter (fun a => k a == c)
      else l.filter (fun a => k a == c) := by
  induction l with
  | nil =>
    by_cases hxc : (k x == c) = true <;> simp [insertDescBy, List.filter, hxc]
  | cons y ys ih =>
    by_cases hxy : k x < k y
    · by_cases hyc : (k y == c) = true
      · have h1 : k y = c := by simpa using hyc
        have hxc : ¬((k x == c) = true) := by
          intro hx
          have h2 : k x = c := by simpa using hx
          omega
        simp [insertDescBy, if_pos hxy, List.filter, hyc, ih, hxc]
      · by_cases hxc : (k x == c) = true <;>
          simp [insertDescBy, if_pos hxy, List.filter, hyc, ih, hxc]
    · by_cases hxc : (k x == c) = true <;>
        simp [insertDescBy, if_neg hxy, List.filter, hxc]

/-- Stability of `sortDescBy`: restricted to any single key value, the sorted
list is exactly the original list (original relative order preserved among
equal keys). -/
theorem filter_sortDescBy {α : Type} (k : α → Int) (l : List α) (c : Int) :
    (sortDescBy k l).filter (fun a => k a == c) =
      l.filter (fun a => k a == c) := by
  induction l with
  | nil => simp [sortDescBy]
  | cons x xs ih =>
    simp only [sortDescBy, filter_insertDescBy, ih]
    by_cases hxc : k x == c <;> simp [List.filter, hxc]

/-- Sorting a list that is already in non-increasing key order leaves it
unchanged. -/
theorem sortDescBy_eq_of_pairwise {α : Type} (k : α → Int) (l : List α)
    (h : l.Pairwise (fun a b => k b ≤ k a)) : sortDescBy k l = l := by
  induction l with
  | nil => simp [sortDescBy]
  | cons x xs ih =>
    rcases List.pairwise_cons.mp h with ⟨hx, hxs⟩
    simp only [sortDescBy, ih hxs]
    cases xs with
    | nil => simp [insertDescBy]
    | cons y ys =>
      have : ¬ k x < k y := not_lt_of_le (hx y (by simp))
      simp [insertDescBy, this]

/-! ### Opening statistics -/

/-- The per-key record stored in the grouping `Map` of
`computeOpeningStats`. -/
structure OpeningGroup where
  eco : String
  name : String
  wins : Nat
  losses : Nat
  draws : Nat
deriving DecidableEq

/-- Increment the tally of a group according to one game's result. -/
def bumpGroup (r : GameResult) (o : OpeningGroup) : OpeningGroup :=
  match r with
  | .win => ⟨o.eco, o.name, o.wins + 1, o.losses, o.draws⟩
  | .loss => ⟨o.eco, o.name, o.wins, o.losses + 1, o.draws⟩
  | .draw => ⟨o.eco, o.name, o.wins, o.losses, o.draws + 1⟩

/-- `map.set(key, existing ?? fresh)` bumped by one result: a JS `Map` keeps
an existing key at its position and appends a new key at the end (insertion
order). -/
def upsertGroup (key : String) (fresh : OpeningGroup) (r : GameResult) :
    List (String × OpeningGroup) → List (String × OpeningGroup)
  | [] => [(key, bumpGroup r fresh)]
  | (k, v) :: rest =>
    if k = key then (k, bumpGroup r v) :: rest
    else (k, v) :: upsertGroup key fresh r rest

/-- The grouping loop of `computeOpeningStats` over an already side-filtered
game list: key is the ECO code; a fresh group carries the first-encountered
eco/name. -/
def buildOpeningGroups (username : String) :
    List (String × OpeningGroup) → List ChessGame → List (String × OpeningGroup)
  | acc, [] => acc
  | acc, g :: gs =>
    let o := extractOpening g.pgn
    buildOpeningGroups username
      (upsertGroup o.eco ⟨o.eco, o.name, 0, 0, 0⟩ (getResult g username) acc) gs

/-- `'white' | 'black'`. -/
inductive Side where
  | white
  | black
deriving DecidableEq

/-- The filter `(color === 'white') !== asWhite → continue` keeps a game iff
`(color === 'white') === playedAsWhite(game, username)`. -/
def sideMatches (side : Side) (g : ChessGame) (username : String) : Bool :=
  (side == .white) == playedAsWhite g username

/-- One row of the `computeOpeningStats` output. -/
structure OpeningStats where
  eco : String
  name : String
  wins : Nat
  losses : Nat
  draws : Nat
  count : Nat
  winPct : Nat
deriving DecidableEq

/-- `{...o, count: wins+losses+draws, winPct: winPct(wins, count)}`. -/
def groupToStats (o : OpeningGroup) : OpeningStats :=
  ⟨o.eco, o.name, o.wins, o.losses, o.draws, o.wins + o.losses + o.draws,
    winPctFn o.wins (o.wins + o.losses + o.draws)⟩

/-- `Array.from(map.values()).map(...)`: the per-opening rows in first
encounter order, before sorting. -/
def openingEncounterList (games : List ChessGame) (username : String)
    (side : Side) : List OpeningStats :=
  (buildOpeningGroups username []
      (games.filter (fun g => sideMatches side g username))).map
    (fun kv => groupToStats kv.2)

/-- `computeOpeningStats(games, username, color, topN)`; the source gives
`topN` the default value `10`. -/
def computeOpeningStats (games : List ChessGame) (username : String)
    (side : Side) (topN : Nat) : List OpeningStats :=
  (sortDescBy (fun o => (o.count : Int))
    (openingEncounterList games username side)).take topN

/-! ### Calendar statistics -/

/-- One entry of the `hourOfDay` array. -/
structure HourBucket where
  hour : Nat
  games : Nat
  wins : Nat
  winPct : Nat
deriving DecidableEq

/-- One entry of the `dayOfWeek` array. -/
structure DayBucket where
  day : Nat
  label : String
  games : Nat
  wins : Nat
  winPct : Nat
deriving DecidableEq

/-- `CalendarStats`. -/
structure CalendarStats where
  hourOfDay : List HourBucket
  dayOfWeek : List DayBucket
deriving DecidableEq

/-- `DAY_LABELS`. -/
def dayLabels : List String := ["Sun", "Mon", "Tue", "Wed", "Thu", "Fri", "Sat"]

/-- `computeCalendarStats(games, username)`, parameterised by the platform
local-time conversions `Date#getHours` / `Date#getDay` (external
collaborators; their codomains `0..23` / `0..6` are the platform guarantee
that makes every bucket lookup hit).  All 24 hour buckets and all 7 day
buckets are present even when empty. -/
def computeCalendarStats (hourOf : Int → Fin 24) (dayOf : Int → Fin 7)
    (games : List ChessGame) (username : String) : CalendarStats :=
  let hourBucket := fun (h : Fin 24) =>
    let inBucket := games.filter (fun g => hourOf g.end_time == h)
    let wins := inBucket.countP (fun g => getResult g username == .win)
    HourBucket.mk h.val inBucket.length wins (winPctFn wins inBucket.length)
  let dayBucket := fun (d : Fin 7) =>
    let inBucket := games.filter (fun g => dayOf g.end_time == d)
    let wins := inBucket.countP (fun g => getResult g username == .win)
    DayBucket.mk d.val (dayLabels.getD d.val "") inBucket.length wins
      (winPctFn wins inBucket.length)
  ⟨(List.finRange 24).map hourBucket, (List.finRange 7).map dayBucket⟩

/-! ### Tactics detector -/

/-- `TacticsStats`. -/
structure TacticsStats where
  gamesAnalyzed : Nat
  missedMates : Nat
  matesPlayed : Nat
deriving DecidableEq

/-- The chess.js surface used by `computeTacticsStats`, as the abstract
rules-engine collaborator of the spec (an external capability that is not
reimplemented).  `loadHistory` models `new Chess(); fullGame.loadPgn(pgn);
fullGame.history()`, returning `none` when `loadPgn` throws on malformed
movetext; the remaining fields model `turn`, `moves`, `move`/`undo`
(speculative application is pure here) and `isCheckmate`. -/
structure RulesEngine (Pos : Type) where
  initial : Pos
  loadHistory : String → Option (List String)
  turnWhite : Pos → Bool
  legalMoves : Pos → List String
  applyMove : Pos → String → Pos
  isCheckmate : Pos → Bool

/-- The ply-by-ply walk of one game's move history: on the subject's turn,
probe every legal move for immediate checkmate; if one mates, classify the
actually played move as a played or missed mate.  Returns the game's
`(missedMates, matesPlayed)` contribution. -/
def tacticsWalk {Pos : Type} (E : RulesEngine Pos) (asWhite : Bool) :
    List String → Pos → Nat × Nat
  | [], _ => (0, 0)
  | mv :: rest, pos =>
    if E.turnWhite pos == asWhite then
      let hasMateInOne :=
        (E.legalMoves pos).any (fun m => E.isCheckmate (E.applyMove pos m))
      let pos1 := E.applyMove pos mv
      let res := tacticsWalk E asWhite rest pos1
      if hasMateInOne then
        if E.isCheckmate pos1 then (res.1, res.2 + 1) else (res.1 + 1, res.2)
      else res
    else tacticsWalk E asWhite rest (E.applyMove pos mv)

/-- The body of the per-game `try { ... } catch { }`: a record whose movetext
fails to load contributes `(0, 0)`. -/
def analyzeGame {Pos : Type} (E : RulesEngine Pos) (username : String)
    (game : ChessGame) : Nat × Nat :=
  match E.loadHistory game.pgn with
  | Option.none => (0, 0)
  | some history => tacticsWalk E (playedAsWhite game username) history E.initial

/-- The loop of `computeTacticsStats` over the selected sample: the source
accumulates `missedMates` / `matesPlayed` across games with each game
replayed on a fresh board, which equals the sum of the independent per-game
contributions; `gamesAnalyzed` is the sample length. -/
def tacticsOnSample {Pos : Type} (E : RulesEngine Pos) (username : String)
    (sample : List ChessGame) : TacticsStats :=
  ⟨sample.length,
   (sample.map (fun g => (analyzeGame E username g).1)).sum,
   (sample.map (fun g => (analyzeGame E username g).2)).sum⟩

/-- `computeTacticsStats(games, username)`:
`[...games].sort((a, b) => b.end_time - a.end_time).slice(0, 100)` then the
per-game loop. -/
def computeTacticsStats {Pos : Type} (E : RulesEngine Pos)
    (games : List ChessGame) (username : String) : TacticsStats :=
  tacticsOnSample E username ((sortDescBy (fun g => g.end_time) games).take 100)

/-! ### Offload manager

State model of `useTacticsWorker` (the consumer hook) together with the
worker protocol and the platform semantics it relies on:

* React runs the previous effect's cleanup (`worker.terminate()`) before the
  next effect body, so `start` replaces the live worker unconditionally;
* the hook owns at most one worker (`live : Option` — there is no queue);
* each effect run spawns a fresh `Worker`, modelled by a fresh token
  (`issued` is a ghost counter; the token of the live worker is
  `issued - 1`);
* a terminated worker's `onmessage` never fires, so `deliver` for a token
  other than the live one leaves the state unchanged;
* `surfaced` is the hook's `stats` state paired with the (ghost) token of
  the invocation that produced it; `start` performs the `setStats(null)` of
  the effect body, `clear` models the empty-batch branch
  (`setStats(null); setLoading(false)` with no worker spawned), `teardown`
  models unmount cleanup (terminate only — `stats` is not cleared). -/

/-- Offload-manager state. -/
structure OffloadState where
  issued : Nat
  live : Option Nat
  surfaced : Option (Nat × TacticsStats)
deriving DecidableEq

/-- The events acting on the offload manager. -/
inductive OffloadEvent where
  | start
  | clear
  | deliver (token : Nat) (result : TacticsStats)
  | teardown
deriving DecidableEq

/-- One transition of the offload manager. -/
def offloadStep : OffloadEvent → OffloadState → OffloadState
  | .start, s => ⟨s.issued + 1, some s.issued, Option.none⟩
  | .clear, s => ⟨s.issued, Option.none, Option.none⟩
  | .deliver t r, s =>
    if s.live = some t then ⟨s.issued, s.live, some (t, r)⟩ else s
  | .teardown, s => ⟨s.issued, Option.none, s.surfaced⟩

/-- Initial hook state: no worker, `stats = null`. -/
def offloadInit : OffloadState := ⟨0, Option.none, Option.none⟩

/-- The state after a sequence of events. -/
def offloadRun (events : List OffloadEvent) : OffloadState :=
  events.foldl (fun s e => offloadStep e s) offloadInit

/-! ### Shared helper lemmas -/

/-- The specification's reading of a percentage field: half-up rounding, over
the rationals, of `(numerator/denominator) * 100`, defaulting to `0` on a
zero denominator.  Stated separately from `winPctFn` (which transcribes the
source's guarded `Math.round`) so that the two can be compared. -/
def pctSpecHalfUp (n d : Nat) : Nat :=
  if d = 0 then 0 else ⌊(((n : ℚ) / d) * 100 + 1 / 2 : ℚ)⌋₊

theorem winPctFn_eq_pctSpecHalfUp (n d : Nat) :
    winPctFn n d = pctSpecHalfUp n d := by
  unfold winPctFn pctSpecHalfUp
  by_cases hd : d = 0
  · simp [hd]
  · have hdq : (d : ℚ) ≠ 0 := Nat.cast_ne_zero.mpr hd
    have key : ((n : ℚ) / d) * 100 + 1 / 2 =
        ((200 * n + d : ℕ) : ℚ) / ((2 * d : ℕ) : ℚ) := by
      push_cast
      field_simp
      ring
    rw [if_neg hd, if_neg hd, key, Nat.floor_div_nat, Nat.floor_natCast]

theorem countP_results (games : List ChessGame) (username : String) :
    games.countP (fun g => getResult g username == .win) +
    games.countP (fun g => getResult g username == .loss) +
    games.countP (fun g => getResult g username == .draw) = games.length := by
  induction games with
  | nil => rfl
  | cons g gs ih =>
    cases hr : getResult g username <;>
      simp [List.countP_cons, hr] <;> omega

/-! ### Claim theorems -/

/-- C1: for every record and subject identity, `getResult` classifies the
subject's side's outcome code totally: exactly `"win"` ↦ win, each of the six
draw codes ↦ draw, and every other code falls through to loss; moreover
`getResult` is precisely this mapping applied to the side selected by
`playedAsWhite`, and the draw-code set is exactly
{agreed, repetition, stalemate, insufficient, 50move, timevsinsufficient}. -/
theorem getResult_outcome_mapping_total :
    resultFromCode "win" = .win ∧
    (∀ code, code ∈ drawCodes → resultFromCode code = .draw) ∧
    (∀ code, code ≠ "win" → code ∉ drawCodes → resultFromCode code = .loss) ∧
    (∀ g username, getResult g username =
      resultFromCode
        (if playedAsWhite g username then g.white.result else g.black.result)) ∧
    drawCodes = ["agreed", "repetition", "stalemate", "insufficient",
      "50move", "timevsinsufficient"] := by
  refine ⟨by decide, ?_, ?_, ?_, rfl⟩
  · intro code h
    simp only [drawCodes, List.mem_cons, List.not_mem_nil, or_false] at h
    rcases h with rfl | rfl | rfl | rfl | rfl | rfl <;> decide
  · intro code h1 h2
    unfold resultFromCode
    rw [if_neg h1, if_neg h2]
  · intro g username
    rfl

/-- C1 witness: the mapping evaluated at a draw code and at an unrecognized
code. -/
theorem getResult_outcome_mapping_total_witness :
    resultFromCode "agreed" = .draw ∧ resultFromCode "resigned" = .loss :=
  ⟨getResult_outcome_mapping_total.2.1 "agreed" (by decide),
   getResult_outcome_mapping_total.2.2.1 "resigned" (by decide) (by decide)⟩

/-- C9: a record whose two sides both fail to match the subject identity
case-insensitively is treated as played-as-black (`playedAsWhite` is false,
so `getResult` classifies by the black side's outcome code), and
consequently `computeResultCounts(batch, identity).total = batch.length`
holds for every batch whatsoever — foreign records are silently counted. -/
theorem foreign_records_counted_as_black :
    (∀ (g : ChessGame) (username : String),
      lowerStr g.white.username ≠ lowerStr username →
      lowerStr g.black.username ≠ lowerStr username →
      playedAsWhite g username = false ∧
      getResult g username = resultFromCode g.black.result) ∧
    (∀ (games : List ChessGame) (username : String),
      (computeResultCounts games username).total = games.length) := by
  constructor
  · intro g username hw _hb
    have hpw : playedAsWhite g username = false := by
      unfold playedAsWhite
      exact beq_eq_false_iff_ne.mpr hw
    refine ⟨hpw, ?_⟩
    simp [getResult, hpw]
  · intro games username
    exact countP_results games username

/-- C9 witness: a concrete record in which `"hero"` is on neither side:
`playedAsWhite` is false, the game is classified by Black's code, and the
one-record batch still has `total = 1`. -/
theorem foreign_records_counted_as_black_witness :
    playedAsWhite ⟨"1. e4", 0, ⟨800, "win", "alice"⟩, ⟨900, "checkmated", "bob"⟩⟩
        "hero" = false ∧
    getResult ⟨"1. e4", 0, ⟨800, "win", "alice"⟩, ⟨900, "checkmated", "bob"⟩⟩
        "hero" = resultFromCode "checkmated" ∧
    (computeResultCounts
      [⟨"1. e4", 0, ⟨800, "win", "alice"⟩, ⟨900, "checkmated", "bob"⟩⟩]
      "hero").total = 1 := by
  have h := foreign_records_counted_as_black
  exact ⟨(h.1 ⟨"1. e4", 0, ⟨800, "win", "alice"⟩, ⟨900, "checkmated", "bob"⟩⟩
            "hero" (by decide) (by decide)).1,
         (h.1 ⟨"1. e4", 0, ⟨800, "win", "alice"⟩, ⟨900, "checkmated", "bob"⟩⟩
            "hero" (by decide) (by decide)).2,
         h.2 [⟨"1. e4", 0, ⟨800, "win", "alice"⟩, ⟨900, "checkmated", "bob"⟩⟩]
            "hero"⟩

/-- C5: `detectCastling` strips the bracketed headers and tests the
queenside word-pattern before the kingside one: queenside present ↦
`queenside` (regardless of the kingside substring also occurring textually,
as on `"1. e4 e5 2. O-O-O"`, where the kingside pattern also matches);
otherwise kingside present ↦ `kingside`; otherwise `none`. -/
theorem detectCastling_queenside_precedence :
    (∀ pgn, queensideTokPresent pgn = true →
      detectCastling pgn = .queenside) ∧
    (∀ pgn, queensideTokPresent pgn = false →
      kingsideTokPresent pgn = true →
      detectCastling pgn = .kingside) ∧
    (∀ pgn, queensideTokPresent pgn = false →
      kingsideTokPresent pgn = false →
      detectCastling pgn = .none) ∧
    detectCastling "1. e4 e5 2. O-O-O" = .queenside ∧
    kingsideTokPresent "1. e4 e5 2. O-O-O" = true := by
  refine ⟨?_, ?_, ?_, by decide, by decide⟩
  · intro pgn h
    simp [detectCastling, h]
  · intro pgn h1 h2
    simp [detectCastling, h1, h2]
  · intro pgn h1 h2
    simp [detectCastling, h1, h2]

/-- C5 witness: the queenside-precedence branch applied to the moves text
`"1. e4 e5 2. O-O-O"`. -/
theorem detectCastling_queenside_precedence_witness :
    detectCastling "1. e4 e5 2. O-O-O" = .queenside :=
  detectCastling_queenside_precedence.1 "1. e4 e5 2. O-O-O" (by decide)

/-- C6: `extractOpening` returns `eco` = the `ECO` tag value when present and
`"Unknown"` otherwise, and resolves `name` with priority `Opening` tag, then
the `ECOUrl`-derived name (split the post-`/openings/` segment on hyphens,
accumulate until a digits-then-dot token, join with spaces, `"Unknown
Opening"` when that yields nothing), then `"Unknown Opening"`; on the D02
Queens-Pawn scenario the name is `"Queens Pawn Game"`. -/
theorem extractOpening_resolution :
    (∀ pgn, (extractOpening pgn).eco =
      ((ecoTagValue pgn).map String.mk).getD "Unknown") ∧
    (∀ pgn n, openingTagValue pgn = some n →
      (extractOpening pgn).name = String.mk n) ∧
    (∀ pgn u, openingTagValue pgn = Option.none →
      ecoUrlTagValue pgn = some u →
      (extractOpening pgn).name = parseOpeningNameFromUrl (String.mk u)) ∧
    (∀ pgn, openingTagValue pgn = Option.none →
      ecoUrlTagValue pgn = Option.none →
      (extractOpening pgn).name = "Unknown Opening") ∧
    (∀ url path, openingUrlPath url = some path →
      parseOpeningNameFromUrl url =
        (if path.isEmpty then "Unknown Opening"
         else
          let joined := List.intercalate [' ']
            ((path.splitOn '-').takeWhile (fun p => !isMoveNumTok p))
          if joined.isEmpty then "Unknown Opening" else String.mk joined)) ∧
    isMoveNumTok "2.Nf3".toList = true ∧
    isMoveNumTok "Game".toList = false ∧
    extractOpening
      "[ECO \"D02\"]\n[ECOUrl \"https://www.chess.com/openings/Queens-Pawn-Game-2.Nf3-Nf6-3.Bf4\"]\n\n1. d4 d5 2. Nf3" =
      ⟨"D02", "Queens Pawn Game"⟩ := by
  refine ⟨?_, ?_, ?_, ?_, ?_, by decide, by decide, by decide⟩
  · intro pgn
    rfl
  · intro pgn n h
    simp [extractOpening, h]
  · intro pgn u h1 h2
    simp [extractOpening, h1, h2]
  · intro pgn h1 h2
    simp [extractOpening, h1, h2]
  · intro url path h
    simp [parseOpeningNameFromUrl, h]

/-- C6 witness: the priority branches evaluated at concrete header blocks
(explicit `Opening` tag wins; with no `Opening` tag the `ECOUrl` derivation
is used). -/
theorem extractOpening_resolution_witness :
    (extractOpening "[Opening \"Sicilian Defense\"]\n1. e4 c5").name =
      String.mk "Sicilian Defense".toList ∧
    (extractOpening "[ECOUrl \"x/openings/Kings-Gambit-2.f4\"]").name =
      parseOpeningNameFromUrl (String.mk "x/openings/Kings-Gambit-2.f4".toList) :=
  ⟨extractOpening_resolution.2.1 "[Opening \"Sicilian Defense\"]\n1. e4 c5"
      "Sicilian Defense".toList (by decide),
   extractOpening_resolution.2.2.1 "[ECOUrl \"x/openings/Kings-Gambit-2.f4\"]"
      "x/openings/Kings-Gambit-2.f4".toList (by decide) (by decide)⟩

/-- C10: `detectCastling` scans the full movetext without distinguishing
whose move a castling token is, so `computeCastlingStats` tallies a game by
`detectCastling` of its blob alone: the counts are identical for every
subject identity and equal the number of games whose blob classifies to the
type; concretely, a game in which only the opponent (White) castled
queenside — the subject `"hero"` playing Black and never castling — is
counted toward the subject's queenside statistics. -/
theorem castling_counts_ignore_mover :
    (∀ (games : List ChessGame) (u1 u2 : String),
      (computeCastlingStats games u1).counts =
        (computeCastlingStats games u2).counts) ∧
    (∀ (games : List ChessGame) (u : String),
      (computeCastlingStats games u).counts.queenside =
        (games.filter (fun g => detectCastling g.pgn == .queenside)).length ∧
      (computeCastlingStats games u).counts.kingside =
        (games.filter (fun g => detectCastling g.pgn == .kingside)).length ∧
      (computeCastlingStats games u).counts.none =
        (games.filter (fun g => detectCastling g.pgn == .none)).length) ∧
    (computeCastlingStats
      [⟨"1. d4 d5 2. Nc3 Nc6 3. Bf4 Bf5 4. Qd2 Qd7 5. O-O-O e6", 0,
        ⟨1200, "win", "villain"⟩, ⟨1200, "resigned", "hero"⟩⟩]
      "hero").counts.queenside = 1 ∧
    playedAsWhite
      ⟨"1. d4 d5 2. Nc3 Nc6 3. Bf4 Bf5 4. Qd2 Qd7 5. O-O-O e6", 0,
        ⟨1200, "win", "villain"⟩, ⟨1200, "resigned", "hero"⟩⟩ "hero" = false := by
  refine ⟨?_, ?_, by decide, by decide⟩
  · intro games u1 u2
    rfl
  · intro games u
    refine ⟨?_, ?_, ?_⟩ <;>
      simp [computeCastlingStats, List.countP_eq_length_filter]

/-- C4: every percentage field produced by the aggregators
(`computeResultCounts` win/loss/draw, `computeCastlingStats` share and
per-type win percentages, `computeCalendarStats` bucket win percentages,
`computeOpeningStats` per-opening win percentages) is the integer half-up
rounding of `(numerator/denominator)*100` and equals `0` whenever the
denominator is `0`; in particular the empty batch produces all-zero
percentage fields (the computation is total: never `NaN`, never an
exception). -/
theorem percentage_fields_half_up :
    (∀ (games : List ChessGame) (u : String),
      (computeResultCounts games u).winPct =
        pctSpecHalfUp (computeResultCounts games u).wins
          (computeResultCounts games u).total ∧
      (computeResultCounts games u).lossPct =
        pctSpecHalfUp (computeResultCounts games u).losses
          (computeResultCounts games u).total ∧
      (computeResultCounts games u).drawPct =
        pctSpecHalfUp (computeResultCounts games u).draws
          (computeResultCounts games u).total) ∧
    (∀ (games : List ChessGame) (u : String),
      (computeCastlingStats games u).kingsidePct =
        pctSpecHalfUp (computeCastlingStats games u).counts.kingside
          games.length ∧
      (computeCastlingStats games u).queensidePct =
        pctSpecHalfUp (computeCastlingStats games u).counts.queenside
          games.length ∧
      (computeCastlingStats games u).noCastlePct =
        pctSpecHalfUp (computeCastlingStats games u).counts.none
          games.length ∧
      (computeCastlingStats games u).kingsideWinPct =
        pctSpecHalfUp
          (games.countP (fun g =>
            detectCastling g.pgn == .kingside && getResult g u == .win))
          (computeCastlingStats games u).counts.kingside ∧
      (computeCastlingStats games u).queensideWinPct =
        pctSpecHalfUp
          (games.countP (fun g =>
            detectCastling g.pgn == .queenside && getResult g u == .win))
          (computeCastlingStats games u).counts.queenside ∧
      (computeCastlingStats games u).noCastleWinPct =
        pctSpecHalfUp
          (games.countP (fun g =>
            detectCastling g.pgn == .none && getResult g u == .win))
          (computeCastlingStats games u).counts.none) ∧
    (∀ (hourOf : Int → Fin 24) (dayOf : Int → Fin 7)
        (games : List ChessGame) (u : String),
      (∀ e ∈ (computeCalendarStats hourOf dayOf games u).hourOfDay,
        e.winPct = pctSpecHalfUp e.wins e.games) ∧
      (∀ e ∈ (computeCalendarStats hourOf dayOf games u).dayOfWeek,
        e.winPct = pctSpecHalfUp e.wins e.games)) ∧
    (∀ (games : List ChessGame) (u : String) (side : Side) (topN : Nat),
      ∀ o ∈ computeOpeningStats games u side topN,
        o.winPct = pctSpecHalfUp o.wins o.count) ∧
    (∀ u, computeResultCounts [] u = ⟨0, 0, 0, 0, 0, 0, 0⟩) ∧
    (∀ u, computeCastlingStats [] u = ⟨0, 0, 0, 0, 0, 0, ⟨0, 0, 0⟩⟩) := by
  refine ⟨?_, ?_, ?_, ?_, fun u => rfl, fun u => rfl⟩
  · intro games u
    exact ⟨winPctFn_eq_pctSpecHalfUp _ _, winPctFn_eq_pctSpecHalfUp _ _,
      winPctFn_eq_pctSpecHalfUp _ _⟩
  · intro games u
    exact ⟨winPctFn_eq_pctSpecHalfUp _ _, winPctFn_eq_pctSpecHalfUp _ _,
      winPctFn_eq_pctSpecHalfUp _ _, winPctFn_eq_pctSpecHalfUp _ _,
      winPctFn_eq_pctSpecHalfUp _ _, winPctFn_eq_pctSpecHalfUp _ _⟩
  · intro hourOf dayOf games u
    constructor
    · intro e he
      rcases List.mem_map.mp he with ⟨h, _, rfl⟩
      exact winPctFn_eq_pctSpecHalfUp _ _
    · intro e he
      rcases List.mem_map.mp he with ⟨d, _, rfl⟩
      exact winPctFn_eq_pctSpecHalfUp _ _
  · intro games u side topN o ho
    have h1 : o ∈ sortDescBy (fun o => (o.count : Int))
        (openingEncounterList games u side) :=
      List.take_subset topN _ ho
    have h2 : o ∈ openingEncounterList games u side :=
      (perm_sortDescBy _ _).subset h1
    rcases List.mem_map.mp h2 with ⟨kv, _, rfl⟩
    exact winPctFn_eq_pctSpecHalfUp _ _

/-- C4 witness: the zero-denominator hour bucket of an empty batch, and the
single-opening row of a one-game batch, both audited against the half-up
specification. -/
theorem percentage_fields_half_up_witness :
    (HourBucket.mk 0 0 0 0).winPct = pctSpecHalfUp 0 0 ∧
    (OpeningStats.mk "Unknown" "Unknown Opening" 1 0 0 1 100).winPct =
      pctSpecHalfUp 1 1 :=
  ⟨(percentage_fields_half_up.2.2.1 (fun _ => (0 : Fin 24)) (fun _ => (0 : Fin 7))
      [] "hero").1 ⟨0, 0, 0, 0⟩ (by decide),
   percentage_fields_half_up.2.2.2.1
      [⟨"1. e4", 0, ⟨1, "win", "hero"⟩, ⟨1, "checkmated", "villain"⟩⟩]
      "hero" .white 10 ⟨"Unknown", "Unknown Opening", 1, 0, 0, 1, 100⟩
      (by decide)⟩

/-- C7: `computeOpeningStats` considers only the records where the subject
played the given side, groups them by opening code in first-encounter order,
sorts the groups by count descending with ties kept in encounter order
(stable sort — filtering the sorted list to any single count value returns
the encounter-ordered groups of that count unchanged), and truncates to the
first `topN` rows (the source defaults `topN` to 10). -/
theorem openingStats_sorted_stable_truncated
    (games : List ChessGame) (username : String) (side : Side) (topN : Nat) :
    computeOpeningStats games username side topN =
      (sortDescBy (fun o => (o.count : Int))
        (openingEncounterList games username side)).take topN ∧
    openingEncounterList games username side =
      (buildOpeningGroups username []
        (games.filter (fun g => sideMatches side g username))).map
        (fun kv => groupToStats kv.2) ∧
    (computeOpeningStats games username side topN).length ≤ topN ∧
    (computeOpeningStats games username side topN).Pairwise
      (fun a b => b.count ≤ a.count) ∧
    (∀ c : Int,
      (sortDescBy (fun o => (o.count : Int))
        (openingEncounterList games username side)).filter
          (fun o => ((o.count : Int) == c)) =
      (openingEncounterList games username side).filter
          (fun o => ((o.count : Int) == c))) := by
  refine ⟨rfl, rfl, ?_, ?_, ?_⟩
  · exact List.length_take_le topN _
  · have hp := pairwise_sortDescBy (fun o : OpeningStats => (o.count : Int))
      (openingEncounterList games username side)
    have hsub := List.take_sublist topN
      (sortDescBy (fun o : OpeningStats => (o.count : Int))
        (openingEncounterList games username side))
    exact (hp.sublist hsub).imp (fun h => by exact_mod_cast h)
  · intro c
    exact filter_sortDescBy _ _ c

/-- A trivial instantiation of the rules-engine collaborator whose
`loadHistory` always fails; used by the concrete witnesses. -/
def unitNoneEngine : RulesEngine Unit :=
  ⟨(), fun _ => Option.none, fun _ => true, fun _ => [], fun _ _ => (), fun _ => false⟩

/-- A concrete three-record batch with distinct end timestamps, used by the
concrete witnesses. -/
def witnessGames : List ChessGame :=
  [⟨"1. e4", 5, ⟨1, "win", "x"⟩, ⟨1, "resigned", "hero"⟩⟩,
   ⟨"1. d4", 9, ⟨1, "agreed", "hero"⟩, ⟨1, "agreed", "y"⟩⟩,
   ⟨"1. c4", 2, ⟨1, "checkmated", "hero"⟩, ⟨1, "win", "z"⟩⟩]

/-- C2: `computeTacticsStats` analyzes only the sample of at most the 100
most-recent records by descending end timestamp — its counters equal those
obtained from the sample alone, every sampled record comes from the batch,
the sample is timestamp-descending, and every sampled record's timestamp
dominates every unsampled record's — `gamesAnalyzed` equals
`min(batch length, 100)` independently of any per-record parse outcome
(the rules engine `E` is universally quantified), and the empty batch yields
`{gamesAnalyzed: 0, missedMates: 0, matesPlayed: 0}`. -/
theorem tactics_sample_cap {Pos : Type} (E : RulesEngine Pos)
    (games : List ChessGame) (username : String) :
    (computeTacticsStats E games username).gamesAnalyzed =
      min games.length 100 ∧
    computeTacticsStats E games username =
      ⟨min games.length 100,
       (computeTacticsStats E
         ((sortDescBy (fun g => g.end_time) games).take 100) username).missedMates,
       (computeTacticsStats E
         ((sortDescBy (fun g => g.end_time) games).take 100) username).matesPlayed⟩ ∧
    (∀ g ∈ (sortDescBy (fun g => g.end_time) games).take 100, g ∈ games) ∧
    ((sortDescBy (fun g => g.end_time) games).take 100).Pairwise
      (fun a b => b.end_time ≤ a.end_time) ∧
    (∀ a ∈ (sortDescBy (fun g => g.end_time) games).take 100,
     ∀ b ∈ (sortDescBy (fun g => g.end_time) games).drop 100,
      b.end_time ≤ a.end_time) ∧
    computeTacticsStats E ([] : List ChessGame) username = ⟨0, 0, 0⟩ := by
  have hpair : ((sortDescBy (fun g : ChessGame => g.end_time) games).take 100).Pairwise
      (fun a b => b.end_time ≤ a.end_time) :=
    (pairwise_sortDescBy (fun g : ChessGame => g.end_time) games).sublist
      (List.take_sublist 100 _)
  have hlen : ((sortDescBy (fun g : ChessGame => g.end_time) games).take 100).length
      = min games.length 100 := by
    rw [List.length_take, length_sortDescBy, Nat.min_comm]
  have hss : sortDescBy (fun g : ChessGame => g.end_time)
      ((sortDescBy (fun g : ChessGame => g.end_time) games).take 100)
      = (sortDescBy (fun g : ChessGame => g.end_time) games).take 100 :=
    sortDescBy_eq_of_pairwise _ _ hpair
  have htt : ((sortDescBy (fun g : ChessGame => g.end_time) games).take 100).take 100
      = (sortDescBy (fun g : ChessGame => g.end_time) games).take 100 := by
    rw [List.take_take, Nat.min_self]
  have hsample : computeTacticsStats E
      ((sortDescBy (fun g : ChessGame => g.end_time) games).take 100) username
      = tacticsOnSample E username
        ((sortDescBy (fun g : ChessGame => g.end_time) games).take 100) := by
    unfold computeTacticsStats
    rw [hss, htt]
  refine ⟨hlen, ?_, ?_, hpair, ?_, rfl⟩
  · rw [hsample]
    show tacticsOnSample E username _ = _
    simp [tacticsOnSample, hlen]
  · intro g hg
    exact (perm_sortDescBy _ _).subset (List.take_subset 100 _ hg)
  · intro a ha b hb
    have hp := pairwise_sortDescBy (fun g : ChessGame => g.end_time) games
    rw [← List.take_append_drop 100
      (sortDescBy (fun g : ChessGame => g.end_time) games)] at hp
    exact (List.pairwise_append.mp hp).2.2 a ha b hb

/-- C2 witness: the cap formula and sample membership evaluated on a
concrete three-record batch under a concrete engine. -/
theorem tactics_sample_cap_witness :
    (⟨"1. d4", 9, ⟨1, "agreed", "hero"⟩, ⟨1, "agreed", "y"⟩⟩ : ChessGame)
      ∈ witnessGames ∧
    (computeTacticsStats unitNoneEngine witnessGames "hero").gamesAnalyzed =
      min witnessGames.length 100 :=
  ⟨(tactics_sample_cap unitNoneEngine witnessGames "hero").2.2.1
      ⟨"1. d4", 9, ⟨1, "agreed", "hero"⟩, ⟨1, "agreed", "y"⟩⟩ (by decide),
   (tactics_sample_cap unitNoneEngine witnessGames "hero").1⟩

/-- C3: a sampled record whose movetext fails to replay (the rules engine's
`loadHistory` reports a parse failure) contributes `(0, 0)` to the mate
counters, is still counted in `gamesAnalyzed`, and leaves the processing of
every other record of the sample unchanged — the computation is a total
function, so no failure raises or aborts the remainder. -/
theorem tactics_failure_isolation {Pos : Type} (E : RulesEngine Pos)
    (username : String) (pre post : List ChessGame) (g : ChessGame)
    (h : E.loadHistory g.pgn = Option.none) :
    analyzeGame E username g = (0, 0) ∧
    tacticsOnSample E username (pre ++ g :: post) =
      ⟨(tacticsOnSample E username (pre ++ post)).gamesAnalyzed + 1,
       (tacticsOnSample E username (pre ++ post)).missedMates,
       (tacticsOnSample E username (pre ++ post)).matesPlayed⟩ ∧
    (∀ games, computeTacticsStats E games username =
      tacticsOnSample E username
        ((sortDescBy (fun g => g.end_time) games).take 100)) := by
  have hg : analyzeGame E username g = (0, 0) := by
    unfold analyzeGame
    rw [h]
  refine ⟨hg, ?_, fun games => rfl⟩
  simp [tacticsOnSample, hg]
  omega

/-- C3 witness: a concrete unparsable record inside a one-record sample
under a concrete engine. -/
theorem tactics_failure_isolation_witness :
    analyzeGame unitNoneEngine "hero"
      ⟨"not a pgn", 3, ⟨1, "win", "hero"⟩, ⟨1, "resigned", "v"⟩⟩ = (0, 0) ∧
    tacticsOnSample unitNoneEngine "hero"
      ([] ++ ⟨"not a pgn", 3, ⟨1, "win", "hero"⟩, ⟨1, "resigned", "v"⟩⟩ :: []) =
      ⟨(tacticsOnSample unitNoneEngine "hero" ([] ++ [])).gamesAnalyzed + 1,
       (tacticsOnSample unitNoneEngine "hero" ([] ++ [])).missedMates,
       (tacticsOnSample unitNoneEngine "hero" ([] ++ [])).matesPlayed⟩ :=
  ⟨(tactics_failure_isolation unitNoneEngine "hero" [] []
      ⟨"not a pgn", 3, ⟨1, "win", "hero"⟩, ⟨1, "resigned", "v"⟩⟩ rfl).1,
   (tactics_failure_isolation unitNoneEngine "hero" [] []
      ⟨"not a pgn", 3, ⟨1, "win", "hero"⟩, ⟨1, "resigned", "v"⟩⟩ rfl).2.1⟩

/-- The offload-manager invariant: the live worker, and the invocation whose
result is surfaced, are always the most recently started invocation. -/
def offloadInv (s : OffloadState) : Prop :=
  (∀ t, s.live = some t → t + 1 = s.issued) ∧
  (∀ t r, s.surfaced = some (t, r) → t + 1 = s.issued)

theorem offloadStep_inv (e : OffloadEvent) (s : OffloadState)
    (h : offloadInv s) : offloadInv (offloadStep e s) := by
  rcases h with ⟨h1, h2⟩
  cases e with
  | start =>
    constructor
    · intro t ht
      simp only [offloadStep] at ht ⊢
      have hts : s.issued = t := by
        simpa using ht
      omega
    · intro t r ht
      simp [offloadStep] at ht
  | clear =>
    constructor
    · intro t ht
      simp [offloadStep] at ht
    · intro t r ht
      simp [offloadStep] at ht
  | deliver t0 r0 =>
    by_cases hl : s.live = some t0
    · constructor
      · intro t ht
        simp only [offloadStep, if_pos hl] at ht ⊢
        exact h1 t ht
      · intro t r ht
        simp only [offloadStep, if_pos hl, Option.some.injEq,
          Prod.mk.injEq] at ht ⊢
        rcases ht with ⟨rfl, -⟩
        exact h1 _ hl
    · constructor
      · intro t ht
        simp only [offloadStep, if_neg hl] at ht ⊢
        exact h1 t ht
      · intro t r ht
        simp only [offloadStep, if_neg hl] at ht ⊢
        exact h2 t r ht
  | teardown =>
    constructor
    · intro t ht
      simp [offloadStep] at ht
    · intro t r ht
      simp only [offloadStep] at ht ⊢
      exact h2 t r ht

theorem offloadRun_inv (events : List OffloadEvent) :
    offloadInv (offloadRun events) := by
  have hstep : ∀ s, offloadInv s →
      offloadInv (events.foldl (fun s e => offloadStep e s) s) := by
    induction events with
    | nil => intro s hs; exact hs
    | cons e es ih =>
      intro s hs
      exact ih _ (offloadStep_inv e s hs)
  refine hstep offloadInit ⟨?_, ?_⟩
  · intro t ht
    simp [offloadInit] at ht
  · intro t r ht
    simp [offloadInit] at ht

/-- C8: the Offload Manager holds at most one in-flight invocation (`live`
is an `Option`); after any event sequence the live worker is the most
recently started invocation, a delivery from any terminated/superseded
invocation (token other than the live one, equivalently any token that is
not the most recently issued) leaves the state — in particular the surfaced
result — unchanged, and whenever a result is surfaced it belongs to the most
recently requested invocation. -/
theorem offload_single_flight (events : List OffloadEvent) :
    (∀ t, (offloadRun events).live = some t →
      t + 1 = (offloadRun events).issued) ∧
    (∀ t r, (offloadRun events).live ≠ some t →
      offloadStep (.deliver t r) (offloadRun events) = offloadRun events) ∧
    (∀ t r, t + 1 ≠ (offloadRun events).issued →
      offloadStep (.deliver t r) (offloadRun events) = offloadRun events) ∧
    (∀ t r, (offloadRun events).surfaced = some (t, r) →
      t + 1 = (offloadRun events).issued) := by
  have hinv := offloadRun_inv events
  refine ⟨hinv.1, ?_, ?_, hinv.2⟩
  · intro t r hne
    simp [offloadStep, hne]
  · intro t r hne
    have hl : (offloadRun events).live ≠ some t := by
      intro hlive
      exact hne (hinv.1 t hlive)
    simp [offloadStep, hl]

/-- C8 witness: after two starts, a late delivery from the superseded first
invocation (token 0) is a no-op; and a surfaced result's token is the most
recent invocation. -/
theorem offload_single_flight_witness :
    offloadStep (.deliver 0 ⟨0, 0, 0⟩) (offloadRun [.start, .start]) =
      offloadRun [.start, .start] ∧
    (offloadRun [.start, .deliver 0 ⟨5, 1, 2⟩]).surfaced = some (0, ⟨5, 1, 2⟩) ∧
    0 + 1 = (offloadRun [.start, .deliver 0 ⟨5, 1, 2⟩]).issued :=
  ⟨(offload_single_flight [.start, .start]).2.2.1 0 ⟨0, 0, 0⟩ (by decide),
   by decide,
   (offload_single_flight [.start, .deliver 0 ⟨5, 1, 2⟩]).2.2.2 0 ⟨5, 1, 2⟩
     (by decide)⟩

end ChessInsights
